import Mathlib

/-!
Shallow embedding of `src/awm_scraper.py` (class `AWMScraper`), a bounded-
concurrency web crawler.  Pure helpers of the Python class become Lean
functions; the lock-guarded mutations of the shared `visited_urls` /
`to_visit` state become a step function on an explicit `CrawlState`, with
an interleaving of the critical sections modelled as a list of atomic
actions.  External library capabilities (HTTP transport, `urllib.parse.urljoin`)
are modelled as parameters / explicit outcomes, following the repository
spec which treats them as external collaborators.
-/

namespace AWM

/-! ## URL model: `urllib.parse.urlparse(url).netloc` and `str.endswith`

`urlparse` splits off a leading `scheme:` (an alphabetic character followed
by alphanumeric / `+` / `-` / `.` characters), and reads the network
location as the run after `//` up to the next `/`, `?` or `#`; a URL
without `//` after the scheme has an empty netloc. -/

def isSchemeChar (c : Char) : Bool :=
  c.isAlphanum || c == '+' || c == '-' || c == '.'

def validScheme : List Char → Bool
  | [] => false
  | c :: rest => c.isAlpha && rest.all isSchemeChar

/-- Split a character list at the first `:`, returning the part before and
after it. -/
def splitAtColon : List Char → Option (List Char × List Char)
  | [] => none
  | c :: rest =>
      if c == ':' then some ([], rest)
      else (splitAtColon rest).map (fun p => (c :: p.1, p.2))

/-- Drop a valid `scheme:` prefix, as `urlparse` does. -/
def removeScheme (cs : List Char) : List Char :=
  match splitAtColon cs with
  | some (sch, rest) => if validScheme sch then rest else cs
  | none => cs

/-- `urlparse(url).netloc`. -/
def urlNetloc (url : String) : String :=
  match removeScheme url.toList with
  | '/' :: '/' :: r =>
      String.mk (r.takeWhile (fun c => !(c == '/' || c == '?' || c == '#')))
  | _ => ""

/-- `urlparse(url).path` (for the spec-side eligibility predicate): the run
after the netloc up to the next `?` or `#`; without a `//` authority part,
the path is everything before `?`/`#`. -/
def urlPath (url : String) : String :=
  match removeScheme url.toList with
  | '/' :: '/' :: r =>
      String.mk ((r.dropWhile (fun c => !(c == '/' || c == '?' || c == '#'))).takeWhile
        (fun c => !(c == '?' || c == '#')))
  | r => String.mk (r.takeWhile (fun c => !(c == '?' || c == '#')))

/-- Python `str.endswith(suffix)`: a case-sensitive suffix test. -/
def endswith (s suffix : String) : Bool :=
  suffix.data.isSuffixOf s.data

/-- Python `str.lower()` restricted to ASCII, character by character. -/
def pyLower (s : String) : String :=
  String.mk (s.data.map Char.toLower)

/-- The tuple passed to `url.endswith` in `AWMScraper.is_valid_url`. -/
def excludedExtensions : List String :=
  [".pdf", ".jpg", ".jpeg", ".png", ".gif", ".zip", ".doc", ".docx"]

/-- `AWMScraper.is_valid_url` (src/awm_scraper.py lines 30-34):
`parsed.netloc == 'www.awm.gov.au' and not url.endswith(('.pdf', ...))`.
`str.endswith` on a tuple succeeds when any member is a suffix; it is
case-sensitive and here applied to the whole URL string. -/
def is_valid_url (url : String) : Bool :=
  urlNetloc url == "www.awm.gov.au" &&
    !(excludedExtensions.any (fun ext => endswith url ext))

/-- The eligibility predicate exactly as the claim words it (for the
refinement comparison with `is_valid_url`): authority equals the target
domain, and the *path* does not end in an excluded extension under
*case-insensitive* suffix matching. -/
def claimEligible (url : String) : Bool :=
  urlNetloc url == "www.awm.gov.au" &&
    !(excludedExtensions.any (fun ext => endswith (pyLower (urlPath url)) ext))

/-! ## Frontier / crawl state and the lock-guarded critical sections

`AWMScraper` keeps `visited_urls` (a set) and `to_visit` (a FIFO deque,
front at the head of the list).  Three kinds of atomic events touch this
state:
* the check-and-mark critical section at the top of `scrape_page`
  (lines 50-53), holding `self.lock`;
* the link-offer critical section at the end of `scrape_page`
  (lines 71-74), holding `self.lock`;
* the batch extraction in `scrape_website` (lines 148-153), which runs in
  the coordinator thread between batches.
An interleaving of concurrent workers is a list of such atomic actions. -/

structure CrawlState where
  visited : List String
  pending : List String
  deriving Repr, DecidableEq

/-- Initial state of `scrape_website`: nothing visited, the seed URL
appended to `to_visit` (line 143). -/
def initState (base : String) : CrawlState :=
  { visited := [], pending := [base] }

/-- One atomic critical section.  `check url ok` is the check-and-mark
section of `scrape_page` for `url`, where `ok` records whether the
subsequent fetch+extract of that worker succeeds; `offer links` is the
link-offer section; `take n` is the coordinator popping a batch of `n`
URLs. -/
inductive Act where
  | check (url : String) (ok : Bool)
  | offer (links : List String)
  | take (n : Nat)
  deriving Repr, DecidableEq

/-- State transition of one atomic action.
* `check`: `if url in self.visited_urls: return None; self.visited_urls.add(url)`.
* `offer`: `for link in new_links: if link not in self.visited_urls: self.to_visit.append(link)`.
* `take`: `batch_size = min(max_workers, len(to_visit))`, then that many
  `popleft()` calls — i.e. drop the first `n` entries. -/
def stepAct (s : CrawlState) : Act → CrawlState
  | .check url _ =>
      if s.visited.contains url then s
      else { s with visited := url :: s.visited }
  | .offer links =>
      { s with pending := s.pending ++ links.filter (fun l => !s.visited.contains l) }
  | .take n => { s with pending := s.pending.drop n }

/-- Whether the worker for `url` proceeds past the check-and-mark critical
section to the fetch at line 56: exactly when the URL was not yet
visited. -/
def proceedsToFetch (s : CrawlState) (url : String) : Bool :=
  !s.visited.contains url

/-- Run a trace of atomic actions, collecting the URLs for which a
successful `PageRecord` is produced: a record for `url` exists exactly
when that worker has found `url` unvisited in the check-and-mark section
*and* its fetch+extract succeeded. -/
def runTrace (s : CrawlState) : List Act → CrawlState × List String
  | [] => (s, [])
  | a :: rest =>
      let recs :=
        match a with
        | .check url ok => if !s.visited.contains url && ok then [url] else []
        | _ => []
      let out := runTrace (stepAct s a) rest
      (out.1, recs ++ out.2)

/-- The batch extraction of `scrape_website` as a function: it pops
`min(max_workers, len(to_visit))` URLs off the front of `to_visit` and
returns them as the batch.  It does not touch `visited_urls`. -/
def takeBatch (s : CrawlState) (n : Nat) : List String × CrawlState :=
  (s.pending.take n, { s with pending := s.pending.drop n })

/-! ## Parsed HTML documents (the BeautifulSoup tree)

`BeautifulSoup(response.content, 'html.parser')` yields a tree of tags and
text; a document is the list of top-level nodes.  The scraper consumes the
tree only through `find` / `find_all` (pre-order document order),
`get_text`, attribute lookup and `decompose`; those are embedded below. -/

inductive Node where
  | text (s : String)
  | elem (tag : String) (attrs : List (String × String)) (children : List Node)

abbrev Doc := List Node

/-- `tag.get(attrName)`: the parser keeps the first occurrence of a
duplicated attribute. -/
def getAttr (attrs : List (String × String)) (name : String) : Option String :=
  attrs.lookup name

mutual

/-- All elements of a subtree satisfying a predicate on (tag, attrs), in
pre-order document order — the traversal order of `find_all`. -/
def findAllN (p : String → List (String × String) → Bool) : Node → List Node
  | .text _ => []
  | .elem t a c =>
      (if p t a then [Node.elem t a c] else []) ++ findAllL p c

def findAllL (p : String → List (String × String) → Bool) : Doc → List Node
  | [] => []
  | n :: rest => findAllN p n ++ findAllL p rest

end

/-- `soup.find(...)`: first match in document order. -/
def findFirst (p : String → List (String × String) → Bool) (doc : Doc) : Option Node :=
  (findAllL p doc).head?

/-- `soup.find(tagName)` / `soup.body`. -/
def findTag (doc : Doc) (tag : String) : Option Node :=
  findFirst (fun t _ => t == tag) doc

/-- `soup.find_all(tagName)`. -/
def findAllTag (doc : Doc) (tag : String) : List Node :=
  findAllL (fun t _ => t == tag) doc

/-- BeautifulSoup `class_='content'` matching: `'content'` is one of the
whitespace-separated classes of the tag. -/
def hasClass (attrs : List (String × String)) (cls : String) : Bool :=
  match getAttr attrs "class" with
  | some s => (s.splitOn " ").contains cls
  | none => false

mutual

/-- The strings of all text nodes of a subtree, in document order. -/
def textsN : Node → List String
  | .text s => [s]
  | .elem _ _ c => textsL c

def textsL : Doc → List String
  | [] => []
  | n :: rest => textsN n ++ textsL rest

end

/-- `node.get_text(strip=True, separator=sep)`: each text-node string is
stripped, empty results are dropped, and the rest are joined with the
separator.  `node.get_text()` (`strip=False`) joins the raw strings. -/
def getText (n : Node) (sep : String) (strip : Bool) : String :=
  let ts := textsN n
  let ts := if strip then (ts.map String.trim).filter (fun s => !(s == "")) else ts
  String.intercalate sep ts

/-- Whether `decompose` keeps a node: everything except `script` and
`style` elements. -/
def keepNode : Node → Bool
  | .text _ => true
  | .elem t _ _ => !(t == "script" || t == "style")

mutual

/-- `for script in soup(["script", "style"]): script.decompose()` — remove
every `script` / `style` element (and its subtree) from the tree. -/
def stripN : Node → Node
  | .text s => .text s
  | .elem t a c => .elem t a (stripL c)

def stripL : Doc → Doc
  | [] => []
  | n :: rest => (if keepNode n then [stripN n] else []) ++ stripL rest

end

/-! ## `AWMScraper.extract_content` (lines 82-100) -/

/-- The `content` dict built by `extract_content`.  The `main_text` key is
only present when one of the three candidate regions exists, hence an
`Option`. -/
structure ContentBlock where
  main_text : Option String
  headings : List String
  paragraphs : List String
  lists : List String

def headingTags : List String := ["h1", "h2", "h3", "h4", "h5", "h6"]

/-- `soup.find('main') or soup.find('div', class_='content') or soup.body`:
the Python `or` chain picks the first of the three lookups that is not
`None`. -/
def mainRegion (d : Doc) : Option Node :=
  match findTag d "main" with
  | some m => some m
  | none =>
      match findFirst (fun t a => t == "div" && hasClass a "content") d with
      | some dv => some dv
      | none => findTag d "body"

/-- `extract_content`: decompose `script`/`style`, then take `main_text`
from the main region (if any) with `get_text(strip=True, separator=' ')`,
headings `h1`-`h6` in document order, and non-empty paragraph / list-item
texts. -/
def extract_content (doc : Doc) : ContentBlock :=
  let d := stripL doc
  { main_text := (mainRegion d).map (fun n => getText n " " true)
    headings := (findAllL (fun t _ => headingTags.contains t) d).map
      (fun h => getText h "" true)
    paragraphs := ((findAllTag d "p").map (fun p => getText p "" true)).filter
      (fun s => !(s == ""))
    lists := ((findAllTag d "li").map (fun li => getText li "" true)).filter
      (fun s => !(s == "")) }

/-! ## `AWMScraper.extract_metadata` (lines 102-116)

The Python `metadata` dict maps names to meta-tag content strings, except
for the key `'images'` which is assigned the list of `img` `src`
attributes after the meta loop.  The value type is therefore a sum. -/

inductive MetaVal where
  | str (s : String)
  | imgs (l : List String)
  deriving Repr, DecidableEq

/-- Python `len` on a metadata value (string length or list length). -/
def pyLen : MetaVal → Nat
  | .str s => s.length
  | .imgs l => l.length

/-- Python dict assignment `m[k] = v`: overwrite in place if the key is
present (keeping its position), else append. -/
def dinsert (m : List (String × MetaVal)) (k : String) (v : MetaVal) :
    List (String × MetaVal) :=
  match m with
  | [] => [(k, v)]
  | (k', v') :: rest =>
      if k' == k then (k, v) :: rest else (k', v') :: dinsert rest k v

/-- `name = meta.get('name') or meta.get('property')`, then the guard
`if name and content` — `or` takes the second operand when the first is
`None` or empty, and the guard drops `None`/empty name or content. -/
def metaPair (attrs : List (String × String)) : Option (String × String) :=
  let name :=
    match getAttr attrs "name" with
    | some s => if s == "" then getAttr attrs "property" else some s
    | none => getAttr attrs "property"
  match name, getAttr attrs "content" with
  | some n, some c => if n == "" || c == "" then none else some (n, c)
  | _, _ => none

/-- The `(name, content)` pairs of the document's meta tags, in document
order, after the `if name and content` guard. -/
def metaPairs (doc : Doc) : List (String × String) :=
  (findAllTag doc "meta").filterMap fun n =>
    match n with
    | .elem _ a _ => metaPair a
    | .text _ => none

/-- `[img.get('src') for img in soup.find_all('img') if img.get('src')]`:
`src` attributes in document order, dropping missing or empty ones. -/
def imageSources (doc : Doc) : List String :=
  (findAllTag doc "img").filterMap fun n =>
    match n with
    | .elem _ a _ =>
        match getAttr a "src" with
        | some s => if s == "" then none else some s
        | none => none
    | .text _ => none

/-- `extract_metadata`: fold the meta tags into the dict (later assignments
overwrite earlier ones), then assign `metadata['images']`. -/
def extract_metadata (doc : Doc) : List (String × MetaVal) :=
  let m := (metaPairs doc).foldl (fun m p => dinsert m p.1 (.str p.2)) []
  dinsert m "images" (.imgs (imageSources doc))

/-! ## `AWMScraper.scrape_page` page-record construction (lines 62-67) -/

structure PageRecord where
  url : String
  title : String
  content : ContentBlock
  metadata : List (String × MetaVal)

/-- `soup.find('title').text.strip() if soup.find('title') else ''` —
`.text` is `get_text()` with no stripping and empty separator. -/
def extractTitle (doc : Doc) : String :=
  match findTag doc "title" with
  | some t => (getText t "" false).trim
  | none => ""

/-- The `page_data` dict of `scrape_page`.  The dict literal is evaluated
in order: `title` reads the unmodified tree, `extract_content` decomposes
`script`/`style` in place, so `extract_metadata` sees the stripped tree. -/
def pageData (url : String) (doc : Doc) : PageRecord :=
  { url := url
    title := extractTitle doc
    content := extract_content doc
    metadata := extract_metadata (stripL doc) }

/-! ## `AWMScraper.extract_links` (lines 36-45) and the full
`scrape_page` step (lines 47-80)

`urljoin` is an external `urllib` capability; it enters the model as the
`resolve` parameter.  `extract_links` accumulates into a Python set, so
duplicates collapse; the set is modelled as the first-occurrence
deduplication of the document-order list. -/

def dedupAux (seen : List String) : List String → List String
  | [] => []
  | x :: rest =>
      if seen.contains x then dedupAux seen rest
      else x :: dedupAux (x :: seen) rest

def dedup (l : List String) : List String := dedupAux [] l

/-- `extract_links(soup, current_url)`: resolve every `href` against the
current URL and keep those passing `is_valid_url`, as a set. -/
def extract_links (resolve : String → String → String) (doc : Doc)
    (currentUrl : String) : List String :=
  dedup (((findAllL (fun t a => t == "a" && (getAttr a "href").isSome) doc).filterMap
    fun n =>
      match n with
      | .elem _ a _ => getAttr a "href"
      | .text _ => none).map (resolve currentUrl) |>.filter is_valid_url)

/-- The outcome of `self.session.get(url, timeout=15)` followed by
`response.raise_for_status()` and parsing: either a parsed document, or an
exception (timeout, connection failure, or the `HTTPError` raised by
`raise_for_status` on a non-2xx status) carrying its message. -/
abbrev FetchOutcome := Except String Doc

/-- `scrape_page` as one worker's effect on the shared state, with the
fetch outcome explicit: the check-and-mark critical section, then on
success the page-record construction and the link-offer critical section;
any exception is caught by the `except` clause and yields `None`. -/
def scrape_page (resolve : String → String → String) (s : CrawlState)
    (url : String) (fetched : FetchOutcome) : CrawlState × Option PageRecord :=
  if s.visited.contains url then (s, none)
  else
    let s1 := { s with visited := url :: s.visited }
    match fetched with
    | .error _ => (s1, none)
    | .ok doc =>
        let links := extract_links resolve doc url
        ({ s1 with
            pending := s1.pending ++ links.filter (fun l => !s1.visited.contains l) },
          some (pageData url doc))

/-! ## `AWMScraper.flatten_data_for_excel` (lines 123-139) -/

structure FlatRow where
  url : String
  title : String
  main_text : String
  headings_count : Nat
  paragraphs_count : Nat
  lists_count : Nat
  images_count : Nat
  description : MetaVal
  keywords : MetaVal

/-- One `flat_item` dict: `.get` chains with their Python defaults. -/
def flat_item (item : PageRecord) : FlatRow :=
  { url := item.url
    title := item.title
    main_text := item.content.main_text.getD ""
    headings_count := item.content.headings.length
    paragraphs_count := item.content.paragraphs.length
    lists_count := item.content.lists.length
    images_count := pyLen ((item.metadata.lookup "images").getD (.imgs []))
    description := (item.metadata.lookup "description").getD (.str "")
    keywords := (item.metadata.lookup "keywords").getD (.str "") }

/-- `flatten_data_for_excel`: the loop appends one flat item per record. -/
def flatten_data_for_excel (data : List PageRecord) : List FlatRow :=
  data.map flat_item

/-! ## Result merging and checkpointing in `scrape_website` (lines 162-170)

The `as_completed` loop runs in the coordinator thread: each non-`None`
result is appended to `scraped_data`, and whenever
`len(scraped_data) % 50 == 0` a checkpoint named by the current length and
holding the whole of `scraped_data` is written.  The stream of worker
results is a list of `Option` records; checkpoints are collected as
(label, snapshot) pairs. -/

def processResults {α : Type} (data : List α) (cps : List (Nat × List α)) :
    List (Option α) → List α × List (Nat × List α)
  | [] => (data, cps)
  | none :: rest => processResults data cps rest
  | some r :: rest =>
      processResults (data ++ [r])
        (if (data ++ [r]).length % 50 == 0
         then cps ++ [((data ++ [r]).length, data ++ [r])] else cps) rest

/-! ## Helper lemmas about the Python dict embedding -/

theorem lookup_dinsert (m : List (String × MetaVal)) (k q : String) (v : MetaVal) :
    (dinsert m k v).lookup q = if q == k then some v else m.lookup q := by
  induction m with
  | nil =>
      by_cases h : q = k
      · simp [dinsert, List.lookup, h]
      · simp [dinsert, List.lookup, h, beq_eq_false_iff_ne.mpr h]
  | cons p rest ih =>
      obtain ⟨k', v'⟩ := p
      by_cases h1 : k' = k
      · subst h1
        by_cases h2 : q = k'
        · simp [dinsert, List.lookup, h2]
        · simp [dinsert, List.lookup, h2, beq_eq_false_iff_ne.mpr h2]
      · by_cases h2 : q = k'
        · subst h2
          simp [dinsert, List.lookup, beq_eq_false_iff_ne.mpr h1, Ne.symm h1]
        · simp [dinsert, List.lookup, beq_eq_false_iff_ne.mpr h1,
            beq_eq_false_iff_ne.mpr h2, h2, ih]

theorem lookup_foldl_dinsert (pairs : List (String × String))
    (m0 : List (String × MetaVal)) (q : String) :
    (pairs.foldl (fun m p => dinsert m p.1 (.str p.2)) m0).lookup q
      = match (pairs.filter (fun p => p.1 == q)).getLast? with
        | some p => some (.str p.2)
        | none => m0.lookup q := by
  induction pairs using List.reverseRecOn generalizing m0 with
  | nil => simp
  | append_singleton init p ih =>
      obtain ⟨n, c⟩ := p
      rw [List.foldl_append, List.foldl_cons, List.foldl_nil, lookup_dinsert]
      by_cases h : q = n
      · subst h
        simp [List.filter_append, List.getLast?_concat]
      · have hne : ¬(n == q) = true := by simp [Ne.symm h]
        simp only [List.filter_append, List.filter_cons, hne, if_neg,
          List.filter_nil, List.append_nil, Bool.false_eq_true]
        rw [ih]
        simp [h]

theorem extract_metadata_lookup_images (doc : Doc) :
    (extract_metadata doc).lookup "images" = some (.imgs (imageSources doc)) := by
  unfold extract_metadata
  rw [lookup_dinsert]
  simp

theorem extract_metadata_lookup_other (doc : Doc) (q : String) (h : q ≠ "images") :
    (extract_metadata doc).lookup q
      = ((metaPairs doc).filter (fun p => p.1 == q)).getLast?.map
          (fun p => MetaVal.str p.2) := by
  unfold extract_metadata
  rw [lookup_dinsert]
  simp only [h, if_neg, beq_iff_eq, if_false]
  rw [lookup_foldl_dinsert]
  cases hl : ((metaPairs doc).filter (fun p => p.1 == q)).getLast? <;>
    simp [List.lookup]

/-! ## Helper lemmas about the crawl-state trace -/

/-- The offer section never appends a URL that is already visited, so the
multiplicity of a visited URL in `pending` is unchanged. -/
theorem offer_count_visited (s : CrawlState) (links : List String) (u : String)
    (h : u ∈ s.visited) :
    ((stepAct s (.offer links)).pending.count u) = s.pending.count u := by
  have hz : ((links.filter (fun l => !s.visited.contains l)).count u) = 0 := by
    rw [List.count_eq_zero]
    intro hm
    have hmem := List.of_mem_filter hm
    simp at hmem
    exact hmem h
  simp only [stepAct]
  rw [List.count_append, hz, Nat.add_zero]

/-- `visited_urls` only grows: any action preserves membership. -/
theorem mem_visited_stepAct (s : CrawlState) (a : Act) (u : String)
    (h : u ∈ s.visited) : u ∈ (stepAct s a).visited := by
  cases a with
  | check url ok =>
      simp only [stepAct]
      by_cases hv : s.visited.contains url = true
      · rw [if_pos hv]; exact h
      · rw [if_neg hv]; exact List.mem_cons_of_mem _ h
  | offer links => exact h
  | take n => exact h

/-- Core invariant of the check-and-mark critical section: every URL for
which a record is produced was unvisited when its check ran, and no URL is
recorded twice. -/
theorem runTrace_records_spec (acts : List Act) :
    ∀ s : CrawlState,
      (∀ u ∈ (runTrace s acts).2, u ∉ s.visited) ∧ (runTrace s acts).2.Nodup := by
  induction acts with
  | nil => intro s; simp [runTrace]
  | cons a rest ih =>
      intro s
      have hrest := ih (stepAct s a)
      have hrest_false : ∀ u ∈ (runTrace (stepAct s a) rest).2, u ∉ s.visited := by
        intro u hu hc
        exact hrest.1 u hu (mem_visited_stepAct s a u hc)
      cases a with
      | offer links =>
          exact ⟨fun u hu => hrest_false u (by simpa [runTrace] using hu),
            by simpa [runTrace] using hrest.2⟩
      | take n =>
          exact ⟨fun u hu => hrest_false u (by simpa [runTrace] using hu),
            by simpa [runTrace] using hrest.2⟩
      | check url ok =>
          by_cases hv : url ∈ s.visited
          · refine ⟨fun u hu => hrest_false u ?_, ?_⟩
            · simpa [runTrace, hv] using hu
            · simpa [runTrace, hv] using hrest.2
          · have hnotin : url ∉ (runTrace (stepAct s (.check url ok)) rest).2 := by
              intro hmem
              apply hrest.1 url hmem
              simp [stepAct, hv]
            cases ok with
            | false =>
                refine ⟨fun u hu => hrest_false u ?_, ?_⟩
                · simpa [runTrace, hv] using hu
                · simpa [runTrace, hv] using hrest.2
            | true =>
                constructor
                · intro u hu
                  have hu' : u = url ∨
                      u ∈ (runTrace (stepAct s (.check url true)) rest).2 := by
                    simpa [runTrace, hv] using hu
                  rcases hu' with rfl | hu'
                  · exact hv
                  · exact hrest_false u hu'
                · have heq : (runTrace s (Act.check url true :: rest)).2
                      = url :: (runTrace (stepAct s (.check url true)) rest).2 := by
                    simp [runTrace, hv]
                  rw [heq]
                  exact List.nodup_cons.mpr ⟨hnotin, hrest.2⟩

/-- Every URL's recorded multiplicity along any trace is at most one. -/
theorem runTrace_count_le_one (s : CrawlState) (acts : List Act) (u : String) :
    (runTrace s acts).2.count u ≤ 1 :=
  List.nodup_iff_count_le_one.mp (runTrace_records_spec acts s).2 u

/-! ## Characterization of the result-processing loop -/

/-- Processing a stream of worker results appends exactly the successful
records, and writes one checkpoint per multiple of 50 crossed by the
running length, each holding the cumulative data at that moment. -/
theorem processResults_eq {α : Type} (results : List (Option α)) :
    ∀ (data : List α) (cps : List (Nat × List α)),
      processResults data cps results =
        (data ++ results.filterMap id,
         cps ++ ((List.range' (data.length + 1) (results.filterMap id).length).filter
             (fun m => m % 50 == 0)).map
           (fun m => (m, (data ++ results.filterMap id).take m))) := by
  induction results with
  | nil => intro data cps; simp [processResults]
  | cons o rest ih =>
      intro data cps
      cases o with
      | none => simpa [processResults] using ih data cps
      | some r =>
          simp only [processResults]
          rw [ih (data ++ [r])]
          have hfm : (some r :: rest).filterMap id = r :: rest.filterMap id := by
            simp
          have happ : data ++ r :: rest.filterMap id
              = (data ++ [r]) ++ rest.filterMap id := by simp
          have hlen : (data ++ [r]).length = data.length + 1 := by simp
          rw [hfm, happ, hlen, List.length_cons,
            List.range'_succ (data.length + 1) (rest.filterMap id).length 1,
            List.filter_cons]
          by_cases hc : ((data.length + 1) % 50 == 0) = true
          · rw [if_pos hc, if_pos hc, List.map_cons]
            have htake : ((data ++ [r]) ++ rest.filterMap id).take (data.length + 1)
                = data ++ [r] := by
              rw [← hlen, List.take_left]
            rw [htake]
            simp [List.append_assoc]
          · rw [if_neg hc, if_neg hc]

/-! ## Claim theorems -/

/-- C1: At-most-once fetch — along every interleaving of worker critical
sections from the crawl starting state, at most one successful
`PageRecord` is produced per URL; and a worker whose check-and-mark
section finds the URL already visited leaves the state unchanged, produces
no record, and does not proceed to the fetch. -/
theorem C1_at_most_once_fetch :
    (∀ (acts : List Act) (u : String),
        ((runTrace (initState "https://www.awm.gov.au") acts).2.count u) ≤ 1) ∧
    (∀ (s : CrawlState) (url : String) (ok : Bool), url ∈ s.visited →
        stepAct s (.check url ok) = s ∧
        runTrace s [.check url ok] = (s, []) ∧
        proceedsToFetch s url = false) := by
  constructor
  · intro acts u
    exact runTrace_count_le_one _ acts u
  · intro s url ok h
    exact ⟨by simp [stepAct, h], by simp [runTrace, stepAct, h],
      by simp [proceedsToFetch, h]⟩

/-- C1 witness: instantiation at a state that has already visited the
concrete URL. -/
theorem C1_at_most_once_fetch_witness :
    stepAct ⟨["https://www.awm.gov.au"], []⟩ (.check "https://www.awm.gov.au" true)
        = ⟨["https://www.awm.gov.au"], []⟩ ∧
    runTrace ⟨["https://www.awm.gov.au"], []⟩ [.check "https://www.awm.gov.au" true]
        = (⟨["https://www.awm.gov.au"], []⟩, []) ∧
    proceedsToFetch ⟨["https://www.awm.gov.au"], []⟩ "https://www.awm.gov.au" = false :=
  C1_at_most_once_fetch.2 ⟨["https://www.awm.gov.au"], []⟩ "https://www.awm.gov.au" true
    (by simp)

/-- C2 counterexample: two workers discover the same eligible URL while it
is still unvisited; both offer sections append it, so it occurs twice in
`pending` — refuting that each distinct eligible URL appears in the
pending queue at most once. -/
theorem C2_pending_dedup_cx :
    ((runTrace (initState "https://www.awm.gov.au")
        [.take 1, .check "https://www.awm.gov.au" true,
         .offer ["https://www.awm.gov.au/p1", "https://www.awm.gov.au/p2"],
         .take 2,
         .check "https://www.awm.gov.au/p1" true,
         .check "https://www.awm.gov.au/p2" true,
         .offer ["https://www.awm.gov.au/a"],
         .offer ["https://www.awm.gov.au/a"]]).1.pending.count
      "https://www.awm.gov.au/a") = 2 := by decide

/-- C2 amended: the offer section appends exactly the links not yet
visited, with no check against `pending`, so a URL can occur several times
in the queue; `visited` is untouched, and a URL already in `visited` is
never re-offered (its multiplicity in `pending` is unchanged). -/
theorem C2_offer_semantics (s : CrawlState) (links : List String) :
    (stepAct s (.offer links)).pending
        = s.pending ++ links.filter (fun l => !s.visited.contains l) ∧
    (stepAct s (.offer links)).visited = s.visited ∧
    (∀ u, u ∈ s.visited →
        (stepAct s (.offer links)).pending.count u = s.pending.count u) :=
  ⟨rfl, rfl, fun u hu => offer_count_visited s links u hu⟩

/-- C2 witness: a visited URL is not re-offered at a concrete state. -/
theorem C2_offer_semantics_witness :
    (stepAct ⟨["v"], ["p"]⟩ (.offer ["v", "w"])).pending.count "v"
        = (["p"] : List String).count "v" :=
  (C2_offer_semantics ⟨["v"], ["p"]⟩ ["v", "w"]).2.2 "v" (by simp)

/-- C3 counterexample: the suffix check of `is_valid_url` is
case-sensitive (Python `str.endswith`), so a URL ending in `.PDF` is
accepted even though the claim requires case-insensitive rejection of
excluded extensions. -/
theorem C3_is_valid_url_cx :
    is_valid_url "https://www.awm.gov.au/file.PDF" = true ∧
    claimEligible "https://www.awm.gov.au/file.PDF" = false := by decide

/-- C3 amended: `is_valid_url url` holds iff the netloc of the URL is
exactly `www.awm.gov.au` and the URL string does not end in one of the
excluded extensions under *case-sensitive* matching; in particular any URL
with a different authority is rejected, as is any URL that ends in `.pdf`
exactly. -/
theorem C3_is_valid_url_spec (url : String) :
    (is_valid_url url = true ↔
      (urlNetloc url = "www.awm.gov.au" ∧
        ∀ ext ∈ excludedExtensions, endswith url ext = false)) ∧
    (urlNetloc url ≠ "www.awm.gov.au" → is_valid_url url = false) ∧
    (endswith url ".pdf" = true → is_valid_url url = false) := by
  have hmain : is_valid_url url = true ↔
      (urlNetloc url = "www.awm.gov.au" ∧
        ∀ ext ∈ excludedExtensions, endswith url ext = false) := by
    simp [is_valid_url, List.any_eq_true]
  refine ⟨hmain, ?_, ?_⟩
  · intro h
    cases hb : is_valid_url url with
    | false => rfl
    | true => exact absurd (hmain.mp hb).1 h
  · intro h
    cases hb : is_valid_url url with
    | false => rfl
    | true =>
        have hpdf := (hmain.mp hb).2 ".pdf" (by simp [excludedExtensions])
        rw [h] at hpdf
        exact absurd hpdf (by simp)

/-- C3 witness: a plain in-domain page is accepted, and a lowercase `.pdf`
URL is rejected. -/
theorem C3_is_valid_url_spec_witness :
    is_valid_url "https://www.awm.gov.au/page" = true ∧
    is_valid_url "https://www.awm.gov.au/x.pdf" = false :=
  ⟨((C3_is_valid_url_spec "https://www.awm.gov.au/page").1).mpr (by decide),
   (C3_is_valid_url_spec "https://www.awm.gov.au/x.pdf").2.2 (by decide)⟩

/-- C4 counterexample: the batch extraction returns a URL without marking
it visited — refuting that `takeBatch` marks each taken URL as visited
before returning it. -/
theorem C4_takeBatch_cx :
    (takeBatch ⟨[], ["https://www.awm.gov.au/a"]⟩ 3).1
        = ["https://www.awm.gov.au/a"] ∧
    "https://www.awm.gov.au/a" ∉
      (takeBatch ⟨[], ["https://www.awm.gov.au/a"]⟩ 3).2.visited := by
  exact ⟨rfl, by simp [takeBatch]⟩

/-- C4 amended: the batch take removes up to `n` URLs from the front of
`pending` in FIFO order, returning fewer when `pending` holds fewer and an
empty batch when `pending` is empty, but it does *not* mark the taken URLs
as visited — marking is deferred to the check-and-mark section of
`scrape_page`. -/
theorem C4_takeBatch_spec (s : CrawlState) (n : Nat) :
    (takeBatch s n).1 = s.pending.take n ∧
    (takeBatch s n).2.pending = s.pending.drop n ∧
    (takeBatch s n).2.visited = s.visited ∧
    (takeBatch s n).1 ++ (takeBatch s n).2.pending = s.pending ∧
    (takeBatch s n).1.length = min n s.pending.length ∧
    (s.pending = [] → (takeBatch s n).1 = []) := by
  refine ⟨rfl, rfl, rfl, List.take_append_drop n s.pending, ?_, ?_⟩
  · simp [takeBatch]
  · intro h
    simp [takeBatch, h]

/-- C4 witness: taking from an empty queue returns the empty batch. -/
theorem C4_takeBatch_spec_witness :
    (takeBatch ⟨[], []⟩ 2).1 = [] :=
  (C4_takeBatch_spec ⟨[], []⟩ 2).2.2.2.2.2 rfl

/-- C5: with the hard-coded interval 50, a run whose workers produce
exactly 100 successful records writes exactly two checkpoints, labelled by
the cumulative counts 50 and 100, each holding the full cumulative result
set at that point in time. -/
theorem C5_checkpoint_trigger {α : Type} (results : List (Option α))
    (h : (results.filterMap id).length = 100) :
    processResults [] [] results =
      (results.filterMap id,
       [(50, (results.filterMap id).take 50), (100, results.filterMap id)]) := by
  have htake : (results.filterMap id).take 100 = results.filterMap id := by
    rw [← h, List.take_length]
  rw [processResults_eq results [] []]
  have h50 : (List.range' 1 100).filter (fun m => m % 50 == 0) = [50, 100] := by
    decide
  simp only [List.nil_append, List.length_nil, Nat.zero_add, h, h50,
    List.map_cons, List.map_nil, htake]

/-- C5 witness: a concrete stream of 100 successful results. -/
theorem C5_checkpoint_trigger_witness :
    processResults [] [] ((List.range 100).map Option.some) =
      (((List.range 100).map Option.some).filterMap id,
       [(50, (((List.range 100).map Option.some).filterMap id).take 50),
        (100, ((List.range 100).map Option.some).filterMap id)]) :=
  C5_checkpoint_trigger ((List.range 100).map Option.some) (by decide)

/-- C6: a fetch or extraction failure for a URL (timeout, connection
failure, or the exception `raise_for_status` raises on a non-2xx status —
an error, not a crash) is caught at the worker boundary: no record is
produced, the result-processing loop leaves the result set unchanged, the
pending queue is untouched, the URL stays marked visited so it is never
re-offered, and the crawl continues. -/
theorem C6_per_url_error_dropped (resolve : String → String → String)
    (s : CrawlState) (url : String) (e : String) (h : url ∉ s.visited) :
    (scrape_page resolve s url (.error e)).2 = none ∧
    (scrape_page resolve s url (.error e)).1.pending = s.pending ∧
    (scrape_page resolve s url (.error e)).1.visited = url :: s.visited ∧
    (∀ links : List String,
        ((stepAct (scrape_page resolve s url (.error e)).1
            (.offer links)).pending.count url)
          = (scrape_page resolve s url (.error e)).1.pending.count url) ∧
    (∀ (data : List PageRecord) (cps : List (Nat × List PageRecord))
        (rest : List (Option PageRecord)),
        processResults data cps ((scrape_page resolve s url (.error e)).2 :: rest)
          = processResults data cps rest) := by
  have hb : s.visited.contains url = false := by simpa using h
  have hsp : scrape_page resolve s url (.error e)
      = ({ s with visited := url :: s.visited }, none) := by
    simp [scrape_page, h]
  refine ⟨?_, ?_, ?_, ?_, ?_⟩
  · rw [hsp]
  · rw [hsp]
  · rw [hsp]
  · intro links
    rw [hsp]
    exact offer_count_visited _ links url (by simp)
  · intro data cps rest
    rw [hsp]
    simp [processResults]

/-- C6 witness: a concrete timed-out fetch of the seed URL. -/
theorem C6_per_url_error_dropped_witness :
    (scrape_page (fun _ r => r) (initState "https://www.awm.gov.au")
        "https://www.awm.gov.au" (.error "timeout")).2 = none ∧
    (scrape_page (fun _ r => r) (initState "https://www.awm.gov.au")
        "https://www.awm.gov.au" (.error "timeout")).1.pending
      = (initState "https://www.awm.gov.au").pending :=
  ⟨(C6_per_url_error_dropped (fun _ r => r) (initState "https://www.awm.gov.au")
      "https://www.awm.gov.au" "timeout" (by simp [initState])).1,
   (C6_per_url_error_dropped (fun _ r => r) (initState "https://www.awm.gov.au")
      "https://www.awm.gov.au" "timeout" (by simp [initState])).2.1⟩

/-- C7: flattening is a pure per-record map — flattening the same list
twice yields identical rows — and in each row the counts equal the lengths
of the corresponding sequences while description and keywords are read
from the metadata mapping with empty-string defaults; for a record
produced by extraction, `images_count` is the number of image sources. -/
theorem C7_flatten_spec :
    (∀ data : List PageRecord,
        flatten_data_for_excel data = flatten_data_for_excel data ∧
        flatten_data_for_excel data = data.map flat_item ∧
        (flatten_data_for_excel data).length = data.length) ∧
    (∀ item : PageRecord,
        (flat_item item).headings_count = item.content.headings.length ∧
        (flat_item item).paragraphs_count = item.content.paragraphs.length ∧
        (flat_item item).lists_count = item.content.lists.length ∧
        (flat_item item).main_text = item.content.main_text.getD "" ∧
        (flat_item item).description
          = (item.metadata.lookup "description").getD (.str "") ∧
        (flat_item item).keywords
          = (item.metadata.lookup "keywords").getD (.str "")) ∧
    (∀ (url : String) (doc : Doc),
        (flat_item (pageData url doc)).images_count
          = (imageSources (stripL doc)).length) := by
  refine ⟨fun data => ⟨rfl, rfl, by simp [flatten_data_for_excel]⟩,
    fun item => ⟨rfl, rfl, rfl, rfl, rfl, rfl⟩, ?_⟩
  intro url doc
  simp [flat_item, pageData, extract_metadata_lookup_images, pyLen]

/-- C8 counterexample: on a document with no `main` element, no
`div.content` and no `body` (an empty parse), the `main_text` key is
absent from the content dict — not the empty string the claim requires. -/
theorem C8_main_text_cx :
    (extract_content []).main_text = none ∧
    (extract_content []).main_text ≠ some "" := by decide

/-- C8 amended: `main_text` is taken from the semantic `main` landmark if
present, else the `div.content` container, else the whole `body` — and
when none of these regions exists the `main_text` field is *absent* from
the returned content (rather than the empty string). -/
theorem C8_main_text_fallback (doc : Doc) :
    ((extract_content doc).main_text
        = (mainRegion (stripL doc)).map (fun n => getText n " " true)) ∧
    (∀ m, findTag (stripL doc) "main" = some m →
        (extract_content doc).main_text = some (getText m " " true)) ∧
    (findTag (stripL doc) "main" = none →
      ∀ d, findFirst (fun t a => t == "div" && hasClass a "content")
          (stripL doc) = some d →
        (extract_content doc).main_text = some (getText d " " true)) ∧
    (findTag (stripL doc) "main" = none →
      findFirst (fun t a => t == "div" && hasClass a "content")
          (stripL doc) = none →
      ∀ b, findTag (stripL doc) "body" = some b →
        (extract_content doc).main_text = some (getText b " " true)) ∧
    (findTag (stripL doc) "main" = none →
      findFirst (fun t a => t == "div" && hasClass a "content")
          (stripL doc) = none →
      findTag (stripL doc) "body" = none →
        (extract_content doc).main_text = none) := by
  refine ⟨rfl, ?_, ?_, ?_, ?_⟩
  · intro m hm
    simp [extract_content, mainRegion, hm]
  · intro h1 d h2
    simp [extract_content, mainRegion, h1, h2]
  · intro h1 h2 b h3
    simp [extract_content, mainRegion, h1, h2, h3]
  · intro h1 h2 h3
    simp [extract_content, mainRegion, h1, h2, h3]

/-- C8 witness: a document with a `main` landmark. -/
theorem C8_main_text_fallback_witness :
    (extract_content [Node.elem "main" [] [Node.text "hi"]]).main_text
      = some (getText (Node.elem "main" [] [Node.text "hi"]) " " true) :=
  (C8_main_text_fallback [Node.elem "main" [] [Node.text "hi"]]).2.1
    (Node.elem "main" [] [Node.text "hi"]) rfl

/-- C9 counterexample: a meta tag named `images` does not win — the later
assignment `metadata['images'] = [...]` overwrites it with the image-source
list, so the last meta tag with that name does *not* determine the value. -/
theorem C9_metadata_images_cx :
    ((extract_metadata
        [Node.elem "meta" [("name", "images"), ("content", "x")] []]).lookup "images"
      = some (.imgs [])) ∧
    ((extract_metadata
        [Node.elem "meta" [("name", "images"), ("content", "x")] []]).lookup "images"
      ≠ some (.str "x")) := by decide

/-- C9 amended: for every key other than `images`, the metadata mapping
holds the content of the *last* meta tag in document order bearing that
name (unique keys); the key `images` always holds the document-order list
of `img` `src` attributes, overwriting any meta tag of that name. -/
theorem C9_metadata_spec (doc : Doc) :
    (∀ q : String, q ≠ "images" →
        (extract_metadata doc).lookup q
          = ((metaPairs doc).filter (fun p => p.1 == q)).getLast?.map
              (fun p => MetaVal.str p.2)) ∧
    (extract_metadata doc).lookup "images" = some (.imgs (imageSources doc)) :=
  ⟨fun q hq => extract_metadata_lookup_other doc q hq,
   extract_metadata_lookup_images doc⟩

/-- C9 witness: with two `description` meta tags, the later one wins. -/
theorem C9_metadata_spec_witness :
    (extract_metadata
        [Node.elem "meta" [("name", "description"), ("content", "a")] [],
         Node.elem "meta" [("name", "description"), ("content", "b")] []]).lookup
      "description" = some (.str "b") := by
  have h := (C9_metadata_spec
      [Node.elem "meta" [("name", "description"), ("content", "a")] [],
       Node.elem "meta" [("name", "description"), ("content", "b")] []]).1
    "description" (by decide)
  rw [h]
  decide

/-- C10: a document without a `title` element yields the empty-string
title (extraction is total and the field always present); when a `title`
element exists, the title is its raw text with surrounding whitespace
stripped. -/
theorem C10_title_default (url : String) (doc : Doc) :
    (findTag doc "title" = none → (pageData url doc).title = "") ∧
    (∀ t, findTag doc "title" = some t →
        (pageData url doc).title = (getText t "" false).trim) := by
  constructor
  · intro h
    simp [pageData, extractTitle, h]
  · intro t h
    simp [pageData, extractTitle, h]

/-- C10 witness: the empty document has no title element and gets `""`. -/
theorem C10_title_default_witness :
    (pageData "https://www.awm.gov.au" []).title = "" :=
  (C10_title_default "https://www.awm.gov.au" []).1 rfl

end AWM
